import Mathlib

/-!
# Verification of the sparse N-dimensional `Matrix` container (src/matrix.h)

Shallow embedding of the C++ header `src/matrix.h`.  The matrix owns one
associative backing store mapping a coordinate tuple (`tuple_n_t<size_t, N>`)
to an element value.  We model:

* the backing store as an association list with unique keys
  (`Store T := List (Coord × T)`), with the `std::map` capabilities the
  matrix uses: `insert_or_assign`, `find`, `erase(iterator)`, `size`;
* a coordinate as `Coord := List Nat` (the fixed-arity `size_t` tuple;
  arity is enforced by the C++ type system and is not itself at issue
  in the claims below);
* the element type as an arbitrary `T` with decidable equality and a
  distinguished `Default` value (the `Default` template parameter);
* `Matrix::set`, `Matrix::get_or_default`, `Matrix::erase`,
  `Matrix::size` by explicit state passing;
* `Matrix::value_ref` (the lazy Value Handle) as the coordinate it is
  bound to, with `get` and `assign` (C++ `operator T`/`get` and
  `operator=`) acting on an explicit store state;
* `Matrix::index_proxy` (the Index Chain Proxy) with its
  `operator[]`, which returns either another proxy or a `value_ref`;
* `Matrix::matrix_iterator::operator*`, the cell-record projection;
* `detail::tuple_hasher::hash_impl`, the XOR fold of component hashes.
-/

set_option linter.unusedSectionVars false

namespace MatrixSpec

/-- A coordinate key: the ordered components of `tuple_n_t<std::size_t, N>`. -/
abbrev Coord : Type := List Nat

/-- The backing store state: the (key, value) entries of the associative
container, in traversal order.  `std::map` keeps keys unique; general
association lists may not, so well-formed map states are singled out by
`KeysNodup` below. -/
abbrev Store (T : Type) : Type := List (Coord × T)

variable {T : Type} [DecidableEq T]

/-- `Container::find(key)`: the first entry with the given key, if any. -/
def find (m : Store T) (c : Coord) : Option T :=
  match m with
  | [] => none
  | (k, v) :: rest => if k = c then some v else find rest c

/-- `Container::insert_or_assign(key, value)`: overwrite the value at an
existing key, or add a new entry. -/
def insert_or_assign (m : Store T) (c : Coord) (v : T) : Store T :=
  match m with
  | [] => [(c, v)]
  | (k, w) :: rest =>
      if k = c then (c, v) :: rest else (k, w) :: insert_or_assign rest c v

/-- `Container::erase(iterator)` at the iterator produced by `find`:
remove the first entry with the given key (the only one, for a map). -/
def erase_found (m : Store T) (c : Coord) : Store T :=
  match m with
  | [] => []
  | (k, w) :: rest => if k = c then rest else (k, w) :: erase_found rest c

/-- Well-formedness of a map state: keys are pairwise distinct.
Every state of `std::map` / `std::unordered_map` satisfies this. -/
def KeysNodup (m : Store T) : Prop := (m.map Prod.fst).Nodup

namespace Matrix

/-- `Matrix::size()`: the number of stored entries. -/
def size (m : Store T) : Nat := m.length

/-- `Matrix::set(val, pos...)`: `_data.insert_or_assign({pos...}, val)` —
unconditional, with no comparison against the default value. -/
def set (m : Store T) (val : T) (pos : Coord) : Store T :=
  insert_or_assign m pos val

/-- `Matrix::get_or_default(pos...)`: return the found entry's value, else
the `Default` template argument.  A `const` member: it takes no store and
returns no store, so it cannot modify storage. -/
def get_or_default (Default : T) (m : Store T) (pos : Coord) : T :=
  match find m pos with
  | some v => v
  | none => Default

/-- `Matrix::erase(pos...)`: find the entry; erase it if the iterator is
not `end()`, otherwise do nothing. -/
def erase (m : Store T) (pos : Coord) : Store T :=
  match find m pos with
  | some _ => erase_found m pos
  | none => m

/-- `Matrix::at(pos...)`: returns `value_ref{*this, pos...}` — no store
access happens yet; see `value_ref`. -/
def at_pos (pos : Coord) : Coord := pos

end Matrix

/-- `Matrix::value_ref`: the Value Handle.  It stores a reference to the
matrix and the coordinate (`position`) by value, nothing else; the matrix
reference is modelled by passing the store state explicitly. -/
structure value_ref : Type where
  position : Coord
deriving DecidableEq

/-- `Matrix::at(pos...)` returning the Value Handle itself. -/
def Matrix.at_ref (pos : Coord) : value_ref := ⟨pos⟩

/-- `value_ref::get()` (also `operator T`): delegates to
`matrix.get_or_default(pos...)`. -/
def value_ref.get (Default : T) (m : Store T) (r : value_ref) : T :=
  Matrix.get_or_default Default m r.position

/-- `value_ref::operator=(rhs)`: if `rhs == Default` then
`matrix.erase(pos...)` else `matrix.set(rhs, pos...)`. -/
def value_ref.assign (Default : T) (m : Store T) (r : value_ref) (rhs : T) :
    Store T :=
  if rhs = Default then Matrix.erase m r.position
  else Matrix.set m rhs r.position

/-- `Matrix::index_proxy<MatrixType, Order>`: the Index Chain Proxy.
`order` is the `Order` template parameter (dimensions still to supply),
`current_index` the components accumulated so far. -/
structure index_proxy : Type where
  order : Nat
  current_index : Coord
deriving DecidableEq

/-- `Matrix::operator[](index)`: returns
`index_proxy<Matrix, Dimensions - 1>{*this, index}`. -/
def Matrix.subscript (Dimensions : Nat) (index : Nat) : index_proxy :=
  ⟨Dimensions - 1, [index]⟩

/-- `index_proxy::operator[](last_index)`: when `Order == 1` it completes
the coordinate and delegates to `matrix.at(pos..., last_index)` (a
`value_ref`); otherwise it returns `index_proxy<Order - 1>` with the new
component appended.  The `if constexpr` choice of return type is modelled
by the sum. -/
def index_proxy.subscript (p : index_proxy) (last_index : Nat) :
    index_proxy ⊕ value_ref :=
  if p.order = 1 then Sum.inr ⟨p.current_index ++ [last_index]⟩
  else Sum.inl ⟨p.order - 1, p.current_index ++ [last_index]⟩

/-- `Matrix::matrix_iterator::operator*()` applied to the store entry the
wrapped iterator points at: it builds
`std::tuple<std::size_t, std::size_t, T>{get<0>(key), get<1>(key), value}` —
exactly two coordinate components, whatever the dimensionality.  `none`
models the case `N < 2`, where `std::get<1>` does not compile. -/
def matrix_iterator.deref (entry : Coord × T) : Option (Nat × Nat × T) :=
  match entry.1 with
  | c0 :: c1 :: _ => some (c0, c1, entry.2)
  | _ => none

/-- The coordinate components that actually appear in a dereferenced cell
record. -/
def record_coords (r : Nat × Nat × T) : List Nat := [r.1, r.2.1]

/-- `detail::tuple_hasher::hash_impl`: the fold expression
`(std::hash<..>{}(std::get<Indexes>(tuple)) ^ ...)`, i.e. the XOR of the
component hashes.  `h` stands for the component hasher `std::hash`; the
key tuples are homogeneous `size_t` tuples, modelled as `List Nat`.  The
empty case cannot arise in C++ (arity is at least 1) and is given the XOR
unit. -/
def hash_impl (h : Nat → Nat) : List Nat → Nat
  | [] => 0
  | x :: rest =>
      match rest with
      | [] => h x
      | _ :: _ => h x ^^^ hash_impl h rest

/-- The states reachable from a freshly constructed matrix when every
mutation goes through `value_ref::operator=`. -/
inductive ReachableByAssign (Default : T) : Store T → Prop where
  | empty : ReachableByAssign Default []
  | step (m : Store T) (r : value_ref) (v : T) :
      ReachableByAssign Default m →
      ReachableByAssign Default (value_ref.assign Default m r v)

/-- The Backing Store holds no entry whose value equals the Default
Value. -/
def NoDefaultEntries (Default : T) (m : Store T) : Prop :=
  ∀ e ∈ m, e.2 ≠ Default

/-! ## Lemmas about the backing-store operations -/

theorem find_insert_or_assign_self (m : Store T) (c : Coord) (v : T) :
    find (insert_or_assign m c v) c = some v := by
  induction m with
  | nil => simp [insert_or_assign, find]
  | cons e rest ih =>
      obtain ⟨k, w⟩ := e
      by_cases hk : k = c
      · simp [insert_or_assign, find, hk]
      · simp [insert_or_assign, find, hk, ih]

theorem find_insert_or_assign_ne (m : Store T) {c c' : Coord} (v : T)
    (h : c ≠ c') : find (insert_or_assign m c v) c' = find m c' := by
  induction m with
  | nil => simp [insert_or_assign, find, h]
  | cons e rest ih =>
      obtain ⟨k, w⟩ := e
      by_cases hk : k = c
      · subst hk
        simp [insert_or_assign, find, h]
      · simp [insert_or_assign, find, hk, ih]

theorem find_erase_found_ne (m : Store T) {c c' : Coord} (h : c ≠ c') :
    find (erase_found m c) c' = find m c' := by
  induction m with
  | nil => simp [erase_found]
  | cons e rest ih =>
      obtain ⟨k, w⟩ := e
      by_cases hk : k = c
      · subst hk
        simp [erase_found, find, h]
      · simp [erase_found, find, hk, ih]

theorem find_eq_none_of_not_mem_keys (m : Store T) (c : Coord)
    (h : c ∉ m.map Prod.fst) : find m c = none := by
  induction m with
  | nil => simp [find]
  | cons e rest ih =>
      obtain ⟨k, w⟩ := e
      have hk : k ≠ c := by
        intro hEq
        exact h (by simp [hEq])
      have h' : c ∉ rest.map Prod.fst := by
        intro hIn
        exact h (by simp [hIn])
      simp only [find]
      rw [if_neg hk]
      exact ih h'

theorem find_erase_found_self (m : Store T) (c : Coord)
    (hm : KeysNodup m) : find (erase_found m c) c = none := by
  induction m with
  | nil => simp [erase_found, find]
  | cons e rest ih =>
      obtain ⟨k, w⟩ := e
      have hrest : KeysNodup rest := (List.nodup_cons.mp hm).2
      by_cases hk : k = c
      · subst hk
        have hnotin : k ∉ rest.map Prod.fst := (List.nodup_cons.mp hm).1
        simp only [erase_found, if_pos rfl]
        exact find_eq_none_of_not_mem_keys rest k hnotin
      · simp only [erase_found]
        rw [if_neg hk]
        simp only [find]
        rw [if_neg hk]
        exact ih hrest

theorem length_insert_or_assign (m : Store T) (c : Coord) (v : T) :
    (insert_or_assign m c v).length =
      if (find m c).isSome then m.length else m.length + 1 := by
  induction m with
  | nil => simp [insert_or_assign, find]
  | cons e rest ih =>
      obtain ⟨k, w⟩ := e
      by_cases hk : k = c
      · simp [insert_or_assign, find, hk]
      · simp only [insert_or_assign, find, if_neg hk]
        by_cases hf : (find rest c).isSome
        · simp [hf] at ih ⊢
          omega
        · simp [hf] at ih ⊢
          omega

theorem length_erase_found_of_found (m : Store T) (c : Coord)
    (h : (find m c).isSome) : (erase_found m c).length + 1 = m.length := by
  induction m with
  | nil => simp [find] at h
  | cons e rest ih =>
      obtain ⟨k, w⟩ := e
      by_cases hk : k = c
      · simp [erase_found, hk]
      · simp only [find] at h
        rw [if_neg hk] at h
        simp only [erase_found]
        rw [if_neg hk]
        simp only [List.length_cons]
        have := ih h
        omega

theorem mem_insert_or_assign {m : Store T} {c : Coord} {v : T}
    {e : Coord × T} (h : e ∈ insert_or_assign m c v) :
    e ∈ m ∨ e = (c, v) := by
  induction m with
  | nil => simpa [insert_or_assign] using h
  | cons e' rest ih =>
      obtain ⟨k, w⟩ := e'
      by_cases hk : k = c
      · simp [insert_or_assign, hk] at h
        rcases h with h | h
        · right; simpa using h
        · left; simp [h]
      · simp only [insert_or_assign] at h
        rw [if_neg hk] at h
        rcases List.mem_cons.mp h with h | h
        · left; simp [h]
        · rcases ih h with h' | h'
          · left; simp [h']
          · right; exact h'

theorem mem_erase_found {m : Store T} {c : Coord} {e : Coord × T}
    (h : e ∈ erase_found m c) : e ∈ m := by
  induction m with
  | nil => simp [erase_found] at h
  | cons e' rest ih =>
      obtain ⟨k, w⟩ := e'
      by_cases hk : k = c
      · simp only [erase_found] at h
        rw [if_pos hk] at h
        exact List.mem_cons_of_mem _ h
      · simp only [erase_found] at h
        rw [if_neg hk] at h
        rcases List.mem_cons.mp h with h | h
        · simp [h]
        · exact List.mem_cons_of_mem _ (ih h)

/-! ## Lemmas about the XOR hash combiner -/

/-- The same XOR fold as `hash_impl`, written with the XOR unit as initial
accumulator; equal to `hash_impl` because `x ^^^ 0 = x`. -/
def xor_fold (h : Nat → Nat) (l : List Nat) : Nat :=
  l.foldr (fun x acc => h x ^^^ acc) 0

theorem xor_fold_cons (h : Nat → Nat) (x : Nat) (l : List Nat) :
    xor_fold h (x :: l) = h x ^^^ xor_fold h l := rfl

theorem hash_impl_eq_xor_fold (h : Nat → Nat) (l : List Nat) :
    hash_impl h l = xor_fold h l := by
  induction l with
  | nil => rfl
  | cons x rest ih =>
      cases rest with
      | nil => simp [hash_impl, xor_fold]
      | cons y t =>
          simp only [hash_impl] at ih ⊢
          rw [ih, xor_fold_cons]
          rfl

theorem xor_left_comm (a b c : Nat) : a ^^^ (b ^^^ c) = b ^^^ (a ^^^ c) := by
  rw [← Nat.xor_assoc, Nat.xor_comm a b, Nat.xor_assoc]

theorem xor_fold_swap_head (h : Nat → Nat) (ys zs : List Nat) (a b : Nat) :
    xor_fold h (a :: (ys ++ b :: zs)) = xor_fold h (b :: (ys ++ a :: zs)) := by
  induction ys with
  | nil =>
      simp only [List.nil_append, xor_fold_cons]
      exact xor_left_comm (h a) (h b) (xor_fold h zs)
  | cons y t ih =>
      simp only [List.cons_append, xor_fold_cons] at ih ⊢
      rw [xor_left_comm (h a) (h y), xor_left_comm (h b) (h y), ih]

theorem xor_fold_append_congr (h : Nat → Nat) (xs : List Nat)
    {l l' : List Nat} (hl : xor_fold h l = xor_fold h l') :
    xor_fold h (xs ++ l) = xor_fold h (xs ++ l') := by
  induction xs with
  | nil => simpa using hl
  | cons x t ih =>
      simp only [List.cons_append, xor_fold_cons]
      rw [ih]

/-! ## Derived facts used by several claims -/

theorem erase_eq_erase_found {m : Store T} {c : Coord}
    (h : (find m c).isSome) : Matrix.erase m c = erase_found m c := by
  unfold Matrix.erase
  cases hf : find m c with
  | some w => rfl
  | none => rw [hf] at h; simp at h

theorem erase_eq_self {m : Store T} {c : Coord}
    (h : find m c = none) : Matrix.erase m c = m := by
  unfold Matrix.erase
  rw [h]

theorem find_erase_ne (m : Store T) {c c' : Coord} (h : c ≠ c') :
    find (Matrix.erase m c) c' = find m c' := by
  unfold Matrix.erase
  cases hf : find m c with
  | some w => exact find_erase_found_ne m h
  | none => rfl

/-! ## The claims -/

/-- C1: starting from the empty store, if every mutation goes through
`value_ref::operator=`, then the backing store never holds an entry whose
value equals the Default Value: assignment of a default-equal value routes
to `Matrix::erase`, and any other assignment stores a non-default value. -/
theorem c1_assign_preserves_no_default (Default : T) (m : Store T)
    (hm : ReachableByAssign Default m) : NoDefaultEntries Default m := by
  induction hm with
  | empty => intro e he; simp at he
  | step m r v _ ih =>
      intro e he
      unfold value_ref.assign at he
      by_cases hv : v = Default
      · rw [if_pos hv] at he
        cases hf : find m r.position with
        | some w =>
            rw [erase_eq_erase_found (by rw [hf]; rfl)] at he
            exact ih e (mem_erase_found he)
        | none =>
            rw [erase_eq_self hf] at he
            exact ih e he
      · rw [if_neg hv] at he
        unfold Matrix.set at he
        rcases mem_insert_or_assign he with h' | h'
        · exact ih e h'
        · rw [h']
          exact hv

/-- Witness for C1: the spec's own scenario (2-D matrix, default 42):
assign `(0,0) := 1`, then `(0,0) := 42`; the resulting store holds no
default-valued entry. -/
theorem c1_assign_preserves_no_default_witness :
    NoDefaultEntries (42 : Int)
      (value_ref.assign 42
        (value_ref.assign 42 ([] : Store Int) ⟨[0, 0]⟩ 1) ⟨[0, 0]⟩ 42) :=
  c1_assign_preserves_no_default 42 _
    (.step _ ⟨[0, 0]⟩ 42 (.step _ ⟨[0, 0]⟩ 1 .empty))

/-- C2: the claim says dereferencing a Cell Iterator yields all `N`
coordinate components followed by the value.  The code's
`matrix_iterator::operator*` instead builds
`std::tuple<std::size_t, std::size_t, T>` from `get<0>` and `get<1>` of
the key only.  Evaluated at a 3-dimensional entry `(0,1,2) ↦ 222`, the
record is `(0, 1, 222)`: its coordinate components are `[0, 1]`, not the
full key `[0, 1, 2]` — the third component is dropped. -/
theorem c2_deref_drops_third_component :
    matrix_iterator.deref (([0, 1, 2] : Coord), (222 : Int)) =
        some (0, 1, 222) ∧
    record_coords ((0, 1, 222) : Nat × Nat × Int) = [0, 1] ∧
    ([0, 1] : List Nat) ≠ [0, 1, 2] := by
  refine ⟨rfl, rfl, by decide⟩

/-- C3: round-trip.  Assigning a non-default `v` at `c` through a Value
Handle and then reading `c` yields `v`; `size()` grows by exactly 1 when
`c` was absent and is unchanged when it was present. -/
theorem c3_round_trip (Default : T) (m : Store T) (c : Coord) (v : T)
    (hv : v ≠ Default) :
    Matrix.get_or_default Default (value_ref.assign Default m ⟨c⟩ v) c = v ∧
    Matrix.size (value_ref.assign Default m ⟨c⟩ v) =
      (if (find m c).isSome then Matrix.size m else Matrix.size m + 1) := by
  unfold value_ref.assign
  rw [if_neg hv]
  constructor
  · unfold Matrix.set Matrix.get_or_default
    rw [find_insert_or_assign_self]
  · unfold Matrix.set Matrix.size
    exact length_insert_or_assign m c v

/-- Witness for C3 at `Default = 0`, empty prior store, `c = (1,2)`,
`v = 7`. -/
theorem c3_round_trip_witness :
    Matrix.get_or_default (0 : Int)
        (value_ref.assign 0 ([] : Store Int) ⟨[1, 2]⟩ 7) [1, 2] = 7 ∧
    Matrix.size (value_ref.assign (0 : Int) ([] : Store Int) ⟨[1, 2]⟩ 7) =
      (if (find ([] : Store Int) [1, 2]).isSome then
        Matrix.size ([] : Store Int) else Matrix.size ([] : Store Int) + 1) :=
  c3_round_trip 0 [] [1, 2] 7 (by decide)

/-- C4: assigning the Default Value at `c` through a Value Handle leaves
`get_or_default c = Default`, and `size()` drops by exactly 1 iff `c` was
present (so by at most 1), for every well-formed prior map state. -/
theorem c4_assign_default_erases (Default : T) (m : Store T) (c : Coord)
    (hm : KeysNodup m) :
    Matrix.get_or_default Default
        (value_ref.assign Default m ⟨c⟩ Default) c = Default ∧
    Matrix.size (value_ref.assign Default m ⟨c⟩ Default) =
      (if (find m c).isSome then Matrix.size m - 1 else Matrix.size m) ∧
    ((find m c).isSome → 1 ≤ Matrix.size m) := by
  unfold value_ref.assign
  rw [if_pos rfl]
  refine ⟨?_, ?_, ?_⟩
  · unfold Matrix.get_or_default
    cases hf : find m c with
    | some w =>
        rw [erase_eq_erase_found (by rw [hf]; rfl),
          find_erase_found_self m c hm]
    | none =>
        rw [erase_eq_self hf, hf]
  · cases hf : find m c with
    | some w =>
        have hlen := length_erase_found_of_found m c (by rw [hf]; rfl)
        rw [erase_eq_erase_found (by rw [hf]; rfl)]
        simp only [Matrix.size, hf, Option.isSome_some, if_true]
        omega
    | none =>
        rw [erase_eq_self hf]
        simp [hf]
  · intro h
    have hlen := length_erase_found_of_found m c h
    unfold Matrix.size
    omega

/-- Witness for C4: the spec's scenario — default 42, prior store holding
`(0,0) ↦ 1`, assign 42 at `(0,0)`. -/
theorem c4_assign_default_erases_witness :
    Matrix.get_or_default (42 : Int)
        (value_ref.assign 42 [([0, 0], 1)] ⟨[0, 0]⟩ 42) [0, 0] = 42 ∧
    Matrix.size (value_ref.assign (42 : Int) [([0, 0], 1)] ⟨[0, 0]⟩ 42) =
      (if (find [(([0, 0] : Coord), (1 : Int))] [0, 0]).isSome then
        Matrix.size [(([0, 0] : Coord), (1 : Int))] - 1
       else Matrix.size [(([0, 0] : Coord), (1 : Int))]) ∧
    ((find [(([0, 0] : Coord), (1 : Int))] [0, 0]).isSome →
      1 ≤ Matrix.size [(([0, 0] : Coord), (1 : Int))]) :=
  c4_assign_default_erases 42 [([0, 0], 1)] [0, 0] (by simp [KeysNodup])

/-- C5: chained multi-index access agrees with direct full-coordinate
access.  For dimensionality 2, `m[i][j]` produces exactly the Value
Handle `at(i, j)`; for dimensionality 3, `m[i][j]` produces an
intermediate proxy and `m[i][j][k]` produces exactly the Value Handle
`at(i, j, k)`.  Since `value_ref.get` and `value_ref.assign` are
functions of the handle, reads and assignments through the chain coincide
with those through `at`, stated explicitly below. -/
theorem c5_chain_agrees_with_at (i j k : Nat) :
    (∃ r : value_ref,
      (Matrix.subscript 2 i).subscript j = Sum.inr r ∧
      r = Matrix.at_ref [i, j] ∧
      (∀ (Default : T) (m : Store T) (v : T),
        r.get Default m = (Matrix.at_ref [i, j]).get Default m ∧
        r.assign Default m v = (Matrix.at_ref [i, j]).assign Default m v)) ∧
    (∃ p : index_proxy,
      (Matrix.subscript 3 i).subscript j = Sum.inl p ∧
      ∃ r : value_ref,
        p.subscript k = Sum.inr r ∧
        r = Matrix.at_ref [i, j, k] ∧
        (∀ (Default : T) (m : Store T) (v : T),
          r.get Default m = (Matrix.at_ref [i, j, k]).get Default m ∧
          r.assign Default m v =
            (Matrix.at_ref [i, j, k]).assign Default m v)) := by
  refine ⟨⟨⟨[i, j]⟩, rfl, rfl, fun _ _ _ => ⟨rfl, rfl⟩⟩,
    ⟨1, [i, j]⟩, rfl, ⟨[i, j, k]⟩, rfl, rfl, fun _ _ _ => ⟨rfl, rfl⟩⟩

/-- C6: `Matrix::set` is the unconditional low-level write: for every
value `v`, including `v = Default`, the entry is physically present with
value `v` afterwards, and `size()` counts it (+1 when the coordinate was
absent, unchanged when present). -/
theorem c6_set_unconditional (m : Store T) (c : Coord) (v : T) :
    find (Matrix.set m v c) c = some v ∧
    Matrix.size (Matrix.set m v c) =
      (if (find m c).isSome then Matrix.size m else Matrix.size m + 1) :=
  ⟨find_insert_or_assign_self m c v, length_insert_or_assign m c v⟩

/-- C7: `get_or_default` returns the stored value when an entry is
present and the Default Value otherwise.  It is a `const` member modelled
as a pure function `Store T → Coord → T`, so it cannot modify the store;
reading an absent cell is a total, non-error path returning `Default`. -/
theorem c7_get_or_default_cases (Default : T) (m : Store T) (c : Coord) :
    (∀ v : T, find m c = some v → Matrix.get_or_default Default m c = v) ∧
    (find m c = none → Matrix.get_or_default Default m c = Default) :=
  ⟨fun v h => by unfold Matrix.get_or_default; rw [h],
   fun h => by unfold Matrix.get_or_default; rw [h]⟩

/-- Witness for C7: a present cell returns its stored value, an absent
cell returns the default. -/
theorem c7_get_or_default_cases_witness :
    Matrix.get_or_default (7 : Int) [([0, 0], 5)] [0, 0] = 5 ∧
    Matrix.get_or_default (7 : Int) ([] : Store Int) [3, 3] = 7 :=
  ⟨(c7_get_or_default_cases 7 [([0, 0], 5)] [0, 0]).1 5 rfl,
   (c7_get_or_default_cases 7 ([] : Store Int) [3, 3]).2 rfl⟩

/-- C8: the XOR combiner of `detail::tuple_hasher::hash_impl` is
order-insensitive — swapping any two coordinate components (all of the
same `size_t` type) leaves the hash unchanged — and on a two-component
tuple `(a, a)` the hash is the XOR collapse of the two identical
component hashes, `h(a) ^^^ h(a) = 0`. -/
theorem c8_hash_combiner_order_insensitive (h : Nat → Nat)
    (xs ys zs : List Nat) (a b : Nat) :
    hash_impl h (xs ++ a :: (ys ++ b :: zs)) =
      hash_impl h (xs ++ b :: (ys ++ a :: zs)) ∧
    hash_impl h [a, a] = h a ^^^ h a ∧
    h a ^^^ h a = 0 := by
  refine ⟨?_, ?_, Nat.xor_self (h a)⟩
  · rw [hash_impl_eq_xor_fold, hash_impl_eq_xor_fold]
    exact xor_fold_append_congr h xs (xor_fold_swap_head h ys zs a b)
  · simp [hash_impl]

/-- C9: Value Handles perform no caching.  For any two handles bound to
the same coordinate of the same matrix, a write through one is observed
by a read through the other: the read returns exactly the newly assigned
value (also when that value is the default, in which case the entry is
erased and the read resolves to the default). -/
theorem c9_handles_alias (Default : T) (m : Store T) (h1 h2 : value_ref)
    (v : T) (hpos : h1.position = h2.position) (hm : KeysNodup m) :
    value_ref.get Default (value_ref.assign Default m h1 v) h2 = v := by
  unfold value_ref.get value_ref.assign Matrix.get_or_default
  rw [← hpos]
  by_cases hv : v = Default
  · rw [if_pos hv]
    cases hf : find m h1.position with
    | some w =>
        rw [erase_eq_erase_found (by rw [hf]; rfl),
          find_erase_found_self m _ hm, hv]
    | none =>
        rw [erase_eq_self hf, hf, hv]
  · rw [if_neg hv]
    unfold Matrix.set
    rw [find_insert_or_assign_self]

/-- Witness for C9: two distinct handle objects bound to `(0,0)` of a
matrix with default 0; writing 4 through the first is read back through
the second. -/
theorem c9_handles_alias_witness :
    value_ref.get (0 : Int)
      (value_ref.assign 0 ([] : Store Int) ⟨[0, 0]⟩ 4) ⟨[0, 0]⟩ = 4 :=
  c9_handles_alias 0 [] ⟨[0, 0]⟩ ⟨[0, 0]⟩ 4 rfl (by simp [KeysNodup])

/-- C10: frame property.  A single mutation at coordinate `c` — `set`,
`erase`, or Value Handle assignment — leaves `get_or_default` at any
other coordinate `c'` unchanged. -/
theorem c10_mutation_frame (Default : T) (m : Store T) (c c' : Coord)
    (v : T) (h : c ≠ c') :
    Matrix.get_or_default Default (Matrix.set m v c) c' =
      Matrix.get_or_default Default m c' ∧
    Matrix.get_or_default Default (Matrix.erase m c) c' =
      Matrix.get_or_default Default m c' ∧
    Matrix.get_or_default Default (value_ref.assign Default m ⟨c⟩ v) c' =
      Matrix.get_or_default Default m c' := by
  have hset : find (Matrix.set m v c) c' = find m c' :=
    find_insert_or_assign_ne m v h
  have herase : find (Matrix.erase m c) c' = find m c' :=
    find_erase_ne m h
  have hassign : find (value_ref.assign Default m ⟨c⟩ v) c' = find m c' := by
    unfold value_ref.assign
    by_cases hv : v = Default
    · rw [if_pos hv]
      exact herase
    · rw [if_neg hv]
      exact hset
  refine ⟨?_, ?_, ?_⟩ <;> unfold Matrix.get_or_default
  · rw [hset]
  · rw [herase]
  · rw [hassign]

/-- Witness for C10: a store holding `(1,1) ↦ 5`; mutating at `(0,0)` by
each of the three operations leaves the read at `(1,1)` unchanged. -/
theorem c10_mutation_frame_witness :
    Matrix.get_or_default (0 : Int)
        (Matrix.set [([1, 1], 5)] 9 [0, 0]) [1, 1] =
      Matrix.get_or_default 0 [([1, 1], 5)] [1, 1] ∧
    Matrix.get_or_default (0 : Int)
        (Matrix.erase [([1, 1], 5)] [0, 0]) [1, 1] =
      Matrix.get_or_default 0 [([1, 1], 5)] [1, 1] ∧
    Matrix.get_or_default (0 : Int)
        (value_ref.assign 0 [([1, 1], 5)] ⟨[0, 0]⟩ 9) [1, 1] =
      Matrix.get_or_default 0 [([1, 1], 5)] [1, 1] :=
  c10_mutation_frame 0 [([1, 1], 5)] [0, 0] [1, 1] 9 (by decide)

end MatrixSpec
